import Mathlib

/-!
Verification of the StudyBot content-catalog and user-profile stores
(`src/My.py`).  The Python classes `Item`, `Store` and `Users` are shallowly
embedded below: dictionaries become association lists that keep insertion
order, Python `sorted` becomes a stable insertion sort, and writing the JSON
file to disk becomes copying the in-memory list into a `disk` field.
-/

namespace StudyBot

/-- Content item, mirroring the `Item` dataclass of `My.py`. -/
structure Item where
  id : String
  class_ : String
  subject : String
  category : String
  title : String
  lang : String
  url : String
  added_at : String
  views : Int
  downloads : Int
  media_type : String
deriving DecidableEq

/-- Tests whether the char list `n` is a leading segment of `h`. -/
def startsWithL : List Char → List Char → Bool
  | [], _ => true
  | _ :: _, [] => false
  | a :: as, b :: bs => a == b && startsWithL as bs

/-- Tests whether `n` occurs contiguously inside `h`. -/
def containsL (needle : List Char) : List Char → Bool
  | [] => needle.isEmpty
  | b :: bs => startsWithL needle (b :: bs) || containsL needle bs

/-- Python's substring test `needle in hay`. -/
def pyIn (needle hay : String) : Bool := containsL needle.data hay.data

/-- ASCII lowering of one character, as `str.lower()` does on the ASCII
range used by this bot's data. -/
def charLower (c : Char) : Char :=
  if c.toNat >= 65 && c.toNat <= 90 then Char.ofNat (c.toNat + 32) else c

/-- Python `s.lower()` (on ASCII text). -/
def pyLower (s : String) : String := ⟨s.data.map charLower⟩

/-- Whitespace recognised by Python `str.strip()` (the chars that occur in
this data). -/
def pyWhite (c : Char) : Bool := c == ' ' || c == '\t' || c == '\n' || c == '\r'

/-- Python `s.strip()`: drop leading and trailing whitespace. -/
def pyStrip (s : String) : String :=
  ⟨((s.data.dropWhile pyWhite).reverse.dropWhile pyWhite).reverse⟩

/-- One step of the stable sort modelling Python `sorted`: insert `x` into the
already-sorted `l`, after every element that does not strictly come after `x`
(this preserves the original order of key-equal elements, as CPython does). -/
def insortB {α : Type} (lt : α → α → Bool) (x : α) : List α → List α
  | [] => [x]
  | y :: ys => if lt x y then x :: y :: ys else y :: insortB lt x ys

/-- Insert every element of the first list (left to right) into the
accumulator; with `acc = []` this is a stable sort by `lt`. -/
def insortAll {α : Type} (lt : α → α → Bool) : List α → List α → List α
  | [], acc => acc
  | x :: xs, acc => insortAll lt xs (insortB lt x acc)

/-- Model of Python `sorted(l, key=...)`: `lt a b` means `a` sorts strictly
before `b` under the key. -/
def pySort {α : Type} (lt : α → α → Bool) (l : List α) : List α :=
  insortAll lt l []

/-- Strict ascending comparison through a key into a linear order; the
complement-based lemmas below make `pySort` sorted w.r.t. `key · ≤ key ·`. -/
def keyLt {α : Type} {κ : Type} [LinearOrder κ] (key : α → κ) (a b : α) : Bool :=
  decide (key a < key b)

/-- Sort key of `Store.search` / `Store.smart_search`:
`(x.class_, x.subject, x.category, -x.views, -x.downloads)`, ascending.
Python compares `str` lexicographically by code point, which is the `List.Lex`
order on the underlying character lists. -/
def searchKey (it : Item) : List Char ×ₗ (List Char ×ₗ (List Char ×ₗ (Int ×ₗ Int))) :=
  toLex (it.class_.data, toLex (it.subject.data,
    toLex (it.category.data, toLex (-it.views, -it.downloads))))

/-- Sort key of `Store.list_items`: `(x.added_at, x.views, x.downloads)`,
used with `reverse=True`, so the comparison is flipped via `OrderDual`. -/
def itemsKey (it : Item) : List Char ×ₗ (Int ×ₗ Int) :=
  toLex (it.added_at.data, toLex (it.views, it.downloads))

/-- The catalog store: the in-memory `id → Item` dict (an insertion-ordered
list with unique ids) plus the persisted contents of `materials.json`. -/
structure Store where
  items : List Item
  disk : List Item
deriving DecidableEq

/-- Embeds `Store._save`: rewrite the whole backing file from memory. -/
def Store.save (s : Store) : Store := { s with disk := s.items }

/-- The `lang is None or it.lang == lang` filter shared by the queries. -/
def langOk (lang : Option String) (it : Item) : Bool :=
  match lang with
  | none => true
  | some l => it.lang == l

/-- Embeds `Store.list_items`: exact filter on class/subject/category (plus optional
language), sorted by `(added_at, views, downloads)` descending. -/
def Store.list_items (s : Store) (class_ subject category : String)
    (lang : Option String) : List Item :=
  pySort (keyLt (fun it => OrderDual.toDual (itemsKey it)))
    (s.items.filter (fun it =>
      it.class_ == class_ && it.subject == subject && it.category == category &&
      langOk lang it))

/-- Embeds `Store.search`: case-insensitive substring match of the lowercased,
stripped query against title, subject or category, optional exact language
filter, sorted ascending by `searchKey`. -/
def Store.search (s : Store) (query : String) (lang : Option String) : List Item :=
  let q := pyStrip (pyLower query)
  pySort (keyLt searchKey)
    (s.items.filter (fun it =>
      (pyIn q (pyLower it.title) || pyIn q (pyLower it.subject) ||
        pyIn q (pyLower it.category)) && langOk lang it))

/-- The parsed `key=value` parameters of `/s` (`Store.smart_search`). -/
structure SmartParams where
  class_ : Option String
  subject : Option String
  category : Option String
  lang : Option String
  keyword : Option String

/-- The `ok(it)` predicate of `Store.smart_search`: every supplied constraint
must hold. -/
def smartOk (ps : SmartParams) (it : Item) : Bool :=
  (match ps.class_ with | none => true | some c => it.class_ == c) &&
  (match ps.subject with | none => true | some v => pyLower it.subject == pyLower v) &&
  (match ps.category with | none => true | some v => pyLower it.category == pyLower v) &&
  (match ps.lang with | none => true | some v => pyLower it.lang == pyLower v) &&
  (match ps.keyword with | none => true | some k => pyIn (pyLower k) (pyLower it.title))

/-- Embeds `Store.smart_search`: filter by `smartOk`, same ordering as `search`. -/
def Store.smart_search (s : Store) (ps : SmartParams) : List Item :=
  pySort (keyLt searchKey) (s.items.filter (smartOk ps))

/-- The search result order as stated by the spec: `(class, subject,
category)` ascending, then views descending, then downloads descending. -/
def searchOrd (a b : Item) : Prop :=
  a.class_ < b.class_ ∨ (a.class_ = b.class_ ∧
    (a.subject < b.subject ∨ (a.subject = b.subject ∧
      (a.category < b.category ∨ (a.category = b.category ∧
        (b.views < a.views ∨ (a.views = b.views ∧ b.downloads ≤ a.downloads)))))))

/-- The `list_items` result order: newest `added_at` first, then views
descending, then downloads descending. -/
def itemsOrd (a b : Item) : Prop :=
  b.added_at < a.added_at ∨ (b.added_at = a.added_at ∧
    (b.views < a.views ∨ (b.views = a.views ∧ b.downloads ≤ a.downloads)))

/-- Item witnessing the gap between the spec's search predicate and the code
(whitespace-padded query). -/
def itC2x : Item :=
  ⟨"a", "9", "s", "c", "x", "Hindi", "u", "2024", 0, 0, "link"⟩

/-- The free-text search predicate exactly as the claim words it: the query
itself (not stripped) matched case-insensitively against title, subject or
category. -/
def specSearchMatch (query : String) (it : Item) : Bool :=
  pyIn (pyLower query) (pyLower it.title) || pyIn (pyLower query) (pyLower it.subject) ||
    pyIn (pyLower query) (pyLower it.category)

/-- A raw JSON record handed to `/addjson` (`Store.add_from_json`); `none`
models a missing key in the dict. -/
structure RawItem where
  id : Option String
  class_ : Option String
  subject : Option String
  category : Option String
  title : Option String
  lang : Option String
  url : Option String
  added_at : Option String
  views : Option Int
  downloads : Option Int
  media_type : Option String
deriving DecidableEq

/-- Embeds `Item.from_dict`: `d["key"]` on a missing required key raises `KeyError`
(modelled as `Except.error`, checked in Python's evaluation order); optional
keys default.  `now` stands for `datetime.utcnow().isoformat()`. -/
def Item.from_dict (now : String) (d : RawItem) : Except String Item :=
  match d.id with
  | none => .error "KeyError: id"
  | some i =>
  match d.class_ with
  | none => .error "KeyError: class_"
  | some c =>
  match d.subject with
  | none => .error "KeyError: subject"
  | some sub =>
  match d.category with
  | none => .error "KeyError: category"
  | some cat =>
  match d.title with
  | none => .error "KeyError: title"
  | some t =>
  match d.url with
  | none => .error "KeyError: url"
  | some u =>
    .ok { id := i, class_ := c, subject := sub, category := cat, title := t,
          lang := d.lang.getD "English", url := u, added_at := d.added_at.getD now,
          views := d.views.getD 0, downloads := d.downloads.getD 0,
          media_type := d.media_type.getD "link" }

/-- Python dict assignment `self.items[it.id] = it` on the insertion-ordered
item dict: replace in place when the id already exists, else append. -/
def upsert (it : Item) (l : List Item) : List Item :=
  if ∃ x ∈ l, x.id = it.id then l.map (fun x => if x.id = it.id then it else x)
  else l ++ [it]

/-- The upserts performed by the `add_from_json` loop for the valid records
of a batch. -/
def foldIngest (now : String) (ds : List RawItem) (cur : List Item) : List Item :=
  ds.foldl (fun acc d =>
    match Item.from_dict now d with
    | .ok it => upsert it acc
    | .error _ => acc) cur

/-- Loop of `Store.add_from_json`: upsert record by record, counting; on the
first invalid record the `KeyError` escapes before `_save()` runs, leaving
`disk` (the JSON file) untouched but keeping the in-memory upserts made so
far.  On success `_save()` rewrites the file. -/
def addGo (now : String) (disk : List Item) : List RawItem → Nat → List Item →
    (Except String Nat) × Store
  | [], n, cur => (.ok n, { items := cur, disk := cur })
  | d :: ds, n, cur =>
    match Item.from_dict now d with
    | .ok it => addGo now disk ds (n + 1) (upsert it cur)
    | .error e => (.error e, { items := cur, disk := disk })

/-- Embeds `Store.add_from_json(items)`: validate/default and upsert each record in
order, then persist once; returns the count processed. -/
def Store.add_from_json (s : Store) (now : String) (ds : List RawItem) :
    (Except String Nat) × Store :=
  addGo now s.disk ds 0 s.items

/-- Embeds `Store.inc_view`: no-op when the id is absent; otherwise bump the view
counter by one and `_save()` immediately. -/
def Store.inc_view (s : Store) (item_id : String) : Store :=
  if ∃ x ∈ s.items, x.id = item_id then
    Store.save { s with items := s.items.map (fun x =>
      if x.id = item_id then { x with views := x.views + 1 } else x) }
  else s

/-- Embeds `Store.inc_download`: symmetric to `inc_view` for the download counter. -/
def Store.inc_download (s : Store) (item_id : String) : Store :=
  if ∃ x ∈ s.items, x.id = item_id then
    Store.save { s with items := s.items.map (fun x =>
      if x.id = item_id then { x with downloads := x.downloads + 1 } else x) }
  else s

/-- A view/download increment event. -/
inductive IncOp where
  | view (item_id : String)
  | download (item_id : String)

def applyIncOp (s : Store) : IncOp → Store
  | .view i => s.inc_view i
  | .download i => s.inc_download i

/-- A whole sequence of increment events, applied left to right. -/
def applyIncOps (s : Store) : List IncOp → Store
  | [] => s
  | op :: ops => applyIncOps (applyIncOp s op) ops

/-- One quiz question as frozen into the per-user quiz state
(`{"q": ..., "opts": [...], "ans": k}`). -/
structure Question where
  q : String
  opts : List String
  ans : Nat
deriving DecidableEq

/-- An active quiz session (`{"subject", "i", "score", "qs"}`). -/
structure Quiz where
  subject : String
  i : Nat
  score : Nat
  qs : List Question
deriving DecidableEq

/-- One user record of `users.json`; `quiz = none` models the empty dict `{}`
(no active session). -/
structure Profile where
  lang : String
  bookmarks : List String
  points : Int
  daily : Bool
  quiz : Option Quiz
deriving DecidableEq

/-- The defaults installed by `Users.ensure_user`. -/
def defaultProfile : Profile :=
  { lang := "hi", bookmarks := [], points := 0, daily := false, quiz := none }

/-- Embeds `users.json`: a dict keyed by `str(uid)`, kept in insertion order. -/
abbrev UsersDB := List (String × Profile)

/-- Embeds `str(uid)`. -/
def ukey (uid : Int) : String := toString uid

/-- Dict lookup `self.data[str(uid)]`. -/
def lookupU (uid : Int) : UsersDB → Option Profile
  | [] => none
  | e :: es => if e.1 = ukey uid then some e.2 else lookupU uid es

/-- Embeds `Users.ensure_user`: install the default profile when the key is absent
(a fresh dict key is appended at the end). -/
def ensure_user (uid : Int) (db : UsersDB) : UsersDB :=
  if ∃ e ∈ db, e.1 = ukey uid then db else db ++ [(ukey uid, defaultProfile)]

/-- In-place mutation of the profile stored under `str(uid)`. -/
def modifyU (uid : Int) (f : Profile → Profile) : UsersDB → UsersDB
  | [] => []
  | e :: es => (if e.1 = ukey uid then (e.1, f e.2) else e) :: modifyU uid f es

/-- Embeds `Users.get_lang`: ensure the profile exists, then read its language
(default `"hi"`); returns the value and the possibly-extended store. -/
def get_lang (uid : Int) (db : UsersDB) : String × UsersDB :=
  let db2 := ensure_user uid db
  (((lookupU uid db2).map Profile.lang).getD "hi", db2)

/-- Embeds `Users.add_points`: `self.data[str(uid)]["points"] += pts`. -/
def add_points (uid : Int) (pts : Int) (db : UsersDB) : UsersDB :=
  modifyU uid (fun p => { p with points := p.points + pts }) (ensure_user uid db)

/-- Embeds `Users.bookmark`: append the item id unless already bookmarked; no
existence check against the catalog `Store`. -/
def bookmark (uid : Int) (item_id : String) (db : UsersDB) : UsersDB :=
  modifyU uid (fun p =>
    if item_id ∈ p.bookmarks then p
    else { p with bookmarks := p.bookmarks ++ [item_id] })
    (ensure_user uid db)

/-- Embeds `Users.unbookmark`: `list.remove` of the first occurrence when present;
no catalog check either. -/
def unbookmark (uid : Int) (item_id : String) (db : UsersDB) : UsersDB :=
  modifyU uid (fun p =>
    if item_id ∈ p.bookmarks then { p with bookmarks := p.bookmarks.erase item_id }
    else p)
    (ensure_user uid db)

/-- Embeds `Users.set_quiz`. -/
def set_quiz (uid : Int) (q : Option Quiz) (db : UsersDB) : UsersDB :=
  modifyU uid (fun p => { p with quiz := q }) (ensure_user uid db)

/-- Embeds `Users.get_quiz` (ensure, then read the session). -/
def get_quiz (uid : Int) (db : UsersDB) : Option Quiz × UsersDB :=
  let db2 := ensure_user uid db
  ((lookupU uid db2).bind Profile.quiz, db2)

/-- Embeds `send_next_quiz`: when the stored index has reached the question count,
the quiz ends and `score * 2` points are awarded; otherwise only the next
question message is sent (no store change). -/
def sendNextQuiz (uid : Int) (db : UsersDB) : UsersDB :=
  let r := get_quiz uid db
  let i := (r.1.map Quiz.i).getD 0
  let qs := (r.1.map Quiz.qs).getD []
  if qs.length ≤ i then
    add_points uid (((r.1.map Quiz.score).getD 0 : Nat) * 2) r.2
  else r.2

/-- The `QZ|i|opt` branch of `on_cb`: when `0 <= i < len(qs)`, score the
chosen option (a correct answer bumps the session score and adds one point
immediately), set the stored index to `i + 1`, save, and run
`send_next_quiz`. -/
def quizAnswerCb (uid : Int) (i opt : Nat) (db : UsersDB) : UsersDB :=
  let r := get_quiz uid db
  match r.1 with
  | none => r.2
  | some qz =>
    if h : i < qz.qs.length then
      let correct := opt == (qz.qs.get ⟨i, h⟩).ans
      let db1 := if correct then add_points uid 1 r.2 else r.2
      let sc1 := if correct then qz.score + 1 else qz.score
      sendNextQuiz uid (set_quiz uid (some { qz with i := i + 1, score := sc1 }) db1)
    else r.2

/-- Press the answer buttons for questions `start, start + 1, ...` with the
listed option choices. -/
def runAnswers (uid : Int) : List Nat → Nat → UsersDB → UsersDB
  | [], _, db => db
  | o :: os, s, db => runAnswers uid os (s + 1) (quizAnswerCb uid s o db)

/-- The effect of `send_next_quiz` on the acting user's own profile. -/
def sendNextP (p : Profile) : Profile :=
  let i := (p.quiz.map Quiz.i).getD 0
  let qs := (p.quiz.map Quiz.qs).getD []
  if qs.length ≤ i then
    { p with points := p.points + ((p.quiz.map Quiz.score).getD 0 : Nat) * 2 }
  else p

/-- The effect of one `QZ|i|opt` press on the acting user's own profile. -/
def answerStepP (i opt : Nat) (p : Profile) : Profile :=
  match p.quiz with
  | none => p
  | some qz =>
    if h : i < qz.qs.length then
      let correct := opt == (qz.qs.get ⟨i, h⟩).ans
      let p1 := if correct then { p with points := p.points + 1 } else p
      let sc1 := if correct then qz.score + 1 else qz.score
      sendNextP { p1 with quiz := some { qz with i := i + 1, score := sc1 } }
    else p

/-- Profile-level version of `runAnswers`. -/
def runAnswersP : List Nat → Nat → Profile → Profile
  | [], _, p => p
  | o :: os, s, p => runAnswersP os (s + 1) (answerStepP s o p)

/-- How many of the chosen options are the correct ones. -/
def countCorrect : List Question → List Nat → Nat
  | qn :: qs, o :: os => (if o = qn.ans then 1 else 0) + countCorrect qs os
  | _, _ => 0

/-- Store with one user (`7`) who has a freshly started one-question Maths
quiz and zero points. -/
def dbC1x : UsersDB :=
  [("7", { lang := "hi", bookmarks := [], points := 0, daily := false,
           quiz := some ⟨"Maths", 0, 0,
             [⟨"What is the value of (a+b)^2?",
               ["a^2 + b^2", "a^2 + 2ab + b^2", "2ab", "a^2 - 2ab + b^2"], 1⟩]⟩ })]

/-- Concrete profile for the C1 witness: one Physics question, 4 points. -/
def qsC1w : List Question :=
  [⟨"SI unit of force?", ["Newton", "Joule", "Pascal", "Watt"], 0⟩]

/-- Concrete profile value used by the C1 witness. -/
def pC1w : Profile :=
  { lang := "hi", bookmarks := [], points := 4, daily := false,
    quiz := some ⟨"Physics", 0, 0, qsC1w⟩ }

/-- Concrete user store for the C1 witness. -/
def dbC1w : UsersDB := [("5", pC1w)]

/-- Concrete item for the C2 witness. -/
def itC2w : Item :=
  ⟨"b1", "10", "Maths", "Notes", "Algebra basics", "English", "u", "2024", 2, 1, "link"⟩

/-- Concrete raw record for the C4 witness. -/
def rawC4w : RawItem :=
  ⟨some "x1", some "10", some "Maths", some "Notes", some "T2", some "Hindi",
   some "u2", some "2025", some 5, some 1, some "pdf"⟩

/-- The item `rawC4w` validates to. -/
def itC4w : Item :=
  ⟨"x1", "10", "Maths", "Notes", "T2", "Hindi", "u2", "2025", 5, 1, "pdf"⟩

/-- Catalog already holding an (older) item with id `"x1"`. -/
def stC4w : Store :=
  ⟨[⟨"x1", "9", "s", "c", "t", "English", "u", "2020", 0, 0, "link"⟩],
   [⟨"x1", "9", "s", "c", "t", "English", "u", "2020", 0, 0, "link"⟩]⟩

/-- Concrete item for the C5 witness. -/
def itC5w : Item :=
  ⟨"v1", "10", "Maths", "Notes", "T", "Hindi", "u", "2024", 3, 0, "link"⟩

/-- Catalog for the C5 witness. -/
def stC5w : Store := ⟨[itC5w], [itC5w]⟩

/-- Concrete profile for the C6 witness. -/
def pC6w : Profile :=
  { lang := "en", bookmarks := ["a"], points := 1, daily := true, quiz := none }

/-- Concrete user store for the C6 witness. -/
def dbC6w : UsersDB := [("9", pC6w)]

/-- Valid record for the C9 witness. -/
def rawC9ok : RawItem :=
  ⟨some "k1", some "9", some "Science", some "PYQs", some "T", some "English",
   some "u", some "2023", some 0, some 0, some "link"⟩

/-- Record with a missing required field (`id`) for the C9 witness. -/
def rawC9bad : RawItem :=
  ⟨none, some "9", some "Science", some "PYQs", some "T", some "English",
   some "u", some "2023", some 0, some 0, some "link"⟩

/-- Catalog for the C9 witness. -/
def stC9w : Store := ⟨[], [itC5w]⟩

/-- Catalog with two languages for the C10 witness. -/
def stC10w : Store :=
  ⟨[⟨"h1", "9", "Maths", "Notes", "T1", "Hindi", "u", "2024", 0, 0, "link"⟩,
    ⟨"e1", "9", "Maths", "Notes", "T2", "English", "u", "2024", 0, 0, "link"⟩],
   []⟩

theorem containsL_nil (l : List Char) : containsL [] l = true := by
  cases l <;> simp [containsL, startsWithL, List.isEmpty]

theorem pyIn_empty (s : String) : pyIn "" s = true := by
  have h : ("" : String).data = [] := rfl
  simp [pyIn, h, containsL_nil]

theorem insortB_perm {α : Type} (lt : α → α → Bool) (x : α) :
    ∀ l : List α, (insortB lt x l).Perm (x :: l) := by
  intro l
  induction l with
  | nil => simp [insortB]
  | cons y ys ih =>
    by_cases h : lt x y = true
    · simp [insortB, h]
    · simp only [insortB, h, if_false]
      exact (List.Perm.cons y ih).trans (List.Perm.swap x y ys)

theorem insortAll_perm {α : Type} (lt : α → α → Bool) :
    ∀ (l acc : List α), (insortAll lt l acc).Perm (l ++ acc) := by
  intro l
  induction l with
  | nil => intro acc; simp [insortAll]
  | cons x xs ih =>
    intro acc
    have h1 : (insortAll lt (x :: xs) acc).Perm (xs ++ insortB lt x acc) := ih _
    have h2 : (xs ++ insortB lt x acc).Perm (xs ++ (x :: acc)) :=
      List.Perm.append_left xs (insortB_perm lt x acc)
    exact (h1.trans h2).trans List.perm_middle

theorem pySort_perm {α : Type} (lt : α → α → Bool) (l : List α) :
    (pySort lt l).Perm l := by
  simpa using insortAll_perm lt l []

theorem mem_insortB {α : Type} {lt : α → α → Bool} {x z : α} {l : List α}
    (h : z ∈ insortB lt x l) : z = x ∨ z ∈ l := by
  have := (insortB_perm lt x l).mem_iff.mp h
  simpa using this

/-- Sortedness of `insortB`, for a strict "comes before" test `lt` that is
asymmetric and whose complement is transitive. -/
theorem insortB_pairwise {α : Type} {lt : α → α → Bool}
    (hasym : ∀ a b, lt a b = true → lt b a = false)
    (htrans : ∀ a b c, lt b a = false → lt c b = false → lt c a = false)
    (x : α) : ∀ {l : List α}, l.Pairwise (fun a b => lt b a = false) →
    (insortB lt x l).Pairwise (fun a b => lt b a = false) := by
  intro l
  induction l with
  | nil => intro _; simp [insortB]
  | cons y ys ih =>
    intro hp
    rw [List.pairwise_cons] at hp
    obtain ⟨hy, hys⟩ := hp
    by_cases h : lt x y = true
    · rw [insortB, if_pos h, List.pairwise_cons]
      refine ⟨?_, ?_⟩
      · intro z hz
        rcases List.mem_cons.mp hz with rfl | hz
        · exact hasym x z h
        · exact htrans x y z (hasym x y h) (hy z hz)
      · rw [List.pairwise_cons]
        exact ⟨hy, hys⟩
    · rw [insortB, if_neg h, List.pairwise_cons]
      refine ⟨?_, ih hys⟩
      intro z hz
      rcases mem_insortB hz with rfl | hz
      · simpa using h
      · exact hy z hz

theorem insortAll_pairwise {α : Type} {lt : α → α → Bool}
    (hasym : ∀ a b, lt a b = true → lt b a = false)
    (htrans : ∀ a b c, lt b a = false → lt c b = false → lt c a = false) :
    ∀ (l acc : List α), acc.Pairwise (fun a b => lt b a = false) →
    (insortAll lt l acc).Pairwise (fun a b => lt b a = false) := by
  intro l
  induction l with
  | nil => intro acc h; simpa [insortAll] using h
  | cons x xs ih =>
    intro acc h
    exact ih _ (insortB_pairwise hasym htrans x h)

theorem pySort_pairwise {α : Type} {lt : α → α → Bool}
    (hasym : ∀ a b, lt a b = true → lt b a = false)
    (htrans : ∀ a b c, lt b a = false → lt c b = false → lt c a = false)
    (l : List α) :
    (pySort lt l).Pairwise (fun a b => lt b a = false) :=
  insortAll_pairwise hasym htrans l [] (by simp)

theorem keyLt_asym {α κ : Type} [LinearOrder κ] (key : α → κ) :
    ∀ a b, keyLt key a b = true → keyLt key b a = false := by
  intro a b h
  simp only [keyLt, decide_eq_true_eq] at h
  simpa [keyLt] using not_lt.mpr h.le

theorem keyLt_compl_trans {α κ : Type} [LinearOrder κ] (key : α → κ) :
    ∀ a b c, keyLt key b a = false → keyLt key c b = false → keyLt key c a = false := by
  intro a b c hba hcb
  simp only [keyLt, decide_eq_false_iff_not, not_lt] at *
  exact le_trans hba hcb

theorem keyLt_compl {α κ : Type} [LinearOrder κ] (key : α → κ) (a b : α) :
    (keyLt key b a = false) ↔ key a ≤ key b := by
  simp [keyLt, not_lt]

theorem pySort_key_perm {α κ : Type} [LinearOrder κ] (key : α → κ) (l : List α) :
    (pySort (keyLt key) l).Perm l := pySort_perm _ l

theorem pySort_key_pairwise {α κ : Type} [LinearOrder κ] (key : α → κ) (l : List α) :
    (pySort (keyLt key) l).Pairwise (fun a b => key a ≤ key b) :=
  (pySort_pairwise (keyLt_asym key) (keyLt_compl_trans key) l).imp
    (fun h => (keyLt_compl key _ _).mp h)

theorem strDataLt_iff (s t : String) : s.data < t.data ↔ s < t :=
  String.lt_iff_toList_lt.symm

theorem strDataEq_iff (s t : String) : s.data = t.data ↔ s = t :=
  String.toList_inj

theorem searchKey_le_iff (a b : Item) : searchKey a ≤ searchKey b ↔ searchOrd a b := by
  simp only [searchKey, searchOrd, Prod.Lex.le_iff, Prod.Lex.lt_iff, neg_lt_neg_iff,
    neg_le_neg_iff, neg_inj, strDataLt_iff, strDataEq_iff]

theorem itemsKey_dual_le_iff (a b : Item) :
    OrderDual.toDual (itemsKey a) ≤ OrderDual.toDual (itemsKey b) ↔ itemsOrd a b := by
  rw [OrderDual.toDual_le_toDual]
  simp only [itemsKey, itemsOrd, Prod.Lex.le_iff, Prod.Lex.lt_iff, strDataLt_iff, strDataEq_iff]

/-- C3: `list_items` returns exactly the items matching all provided fields
(class, subject, category, optional language, all exact), ordered by creation
timestamp descending with (views, downloads) descending as tie-break — an
ordering distinct from the search ordering. -/
theorem list_items_order (s : Store) (class_ subject category : String)
    (lang : Option String) :
    (s.list_items class_ subject category lang).Perm
      (s.items.filter (fun it =>
        it.class_ == class_ && it.subject == subject && it.category == category &&
        langOk lang it))
    ∧ (s.list_items class_ subject category lang).Pairwise itemsOrd
    ∧ ¬ (∀ a b : Item, itemsOrd a b ↔ searchOrd a b) := by
  refine ⟨pySort_key_perm _ _, ?_, ?_⟩
  · exact (pySort_key_pairwise _ _).imp (fun {a b} h => (itemsKey_dual_le_iff a b).mp h)
  · intro hiff
    have h1 : itemsOrd ⟨"i", "9", "s", "c", "t", "l", "u", "2", 0, 0, "m"⟩
        ⟨"j", "9", "s", "c", "t", "l", "u", "1", 5, 0, "m"⟩ :=
      (itemsKey_dual_le_iff _ _).mp (by decide)
    have h2 : ¬ searchOrd ⟨"i", "9", "s", "c", "t", "l", "u", "2", 0, 0, "m"⟩
        ⟨"j", "9", "s", "c", "t", "l", "u", "1", 5, 0, "m"⟩ :=
      fun hc => absurd ((searchKey_le_iff _ _).mpr hc) (by decide)
    exact h2 ((hiff _ _).mp h1)

/-- C2 (amended): every item returned by `search` matches the lowercased and
*stripped* query as a substring of its lowercased title, subject or category,
passes the exact language filter when one is supplied, and the results (a
permutation of the matching items) are sorted by (class, subject, category)
ascending, then views descending, then downloads descending. -/
theorem search_sound_sorted (s : Store) (query : String) (lang : Option String) :
    (s.search query lang).Perm (s.items.filter (fun it =>
      (pyIn (pyStrip (pyLower query)) (pyLower it.title) ||
       pyIn (pyStrip (pyLower query)) (pyLower it.subject) ||
       pyIn (pyStrip (pyLower query)) (pyLower it.category)) && langOk lang it))
    ∧ (∀ it, it ∈ s.search query lang →
        ((pyIn (pyStrip (pyLower query)) (pyLower it.title) = true ∨
          pyIn (pyStrip (pyLower query)) (pyLower it.subject) = true ∨
          pyIn (pyStrip (pyLower query)) (pyLower it.category) = true)
         ∧ ∀ l, lang = some l → it.lang = l))
    ∧ (s.search query lang).Pairwise searchOrd := by
  refine ⟨pySort_key_perm _ _, ?_, ?_⟩
  · intro it hit
    have hmem := (pySort_key_perm _ _).mem_iff.mp hit
    rw [List.mem_filter] at hmem
    have hpred := hmem.2
    rw [Bool.and_eq_true, Bool.or_eq_true, Bool.or_eq_true] at hpred
    refine ⟨or_assoc.mp hpred.1, ?_⟩
    intro l hl
    have := hpred.2
    rw [hl] at this
    simpa [langOk] using this
  · exact (pySort_key_pairwise _ _).imp (fun {a b} h => (searchKey_le_iff a b).mp h)

/-- C2 (counterexample): with the whitespace-padded query `" x"` the item
`itC2x` (title `"x"`) is returned by `search`, yet `" x"` is not a
case-insensitive substring of its title, subject or category — the claim
omits the stripping step. -/
theorem search_predicate_counterexample :
    (Store.search ⟨[itC2x], [itC2x]⟩ " x" none) = [itC2x] ∧
    specSearchMatch " x" itC2x = false := by
  exact ⟨by decide, by decide⟩

/-- C8: structured search returns an item iff every supplied constraint holds
(class exact; subject, category, language case-insensitive exact; keyword
case-insensitive substring of the title), and results are ordered like
free-text search results. -/
theorem smart_search_and_semantics (s : Store) (ps : SmartParams) :
    (s.smart_search ps).Perm (s.items.filter (smartOk ps))
    ∧ (∀ it, it ∈ s.smart_search ps ↔ (it ∈ s.items ∧ smartOk ps it = true))
    ∧ (s.smart_search ps).Pairwise searchOrd := by
  refine ⟨pySort_key_perm _ _, ?_, ?_⟩
  · intro it
    exact (pySort_key_perm _ _).mem_iff.trans List.mem_filter
  · exact (pySort_key_pairwise _ _).imp (fun {a b} h => (searchKey_le_iff a b).mp h)

/-- C10: an empty or whitespace-only query (lowercased and stripped it is the
empty string, which is a substring of everything) makes `search` return every
item passing the language filter. -/
theorem empty_query_returns_all (s : Store) (query : String) (lang : Option String)
    (h : pyStrip (pyLower query) = "") :
    (s.search query lang).Perm (s.items.filter (langOk lang)) := by
  have hfun : (fun it =>
      (pyIn (pyStrip (pyLower query)) (pyLower it.title) ||
       pyIn (pyStrip (pyLower query)) (pyLower it.subject) ||
       pyIn (pyStrip (pyLower query)) (pyLower it.category)) && langOk lang it) =
      (fun it => langOk lang it) := by
    funext it
    rw [h]
    simp [pyIn_empty]
  rw [Store.search]
  rw [hfun]
  exact pySort_key_perm _ _

theorem upsert_map_id_present (it : Item) (l : List Item) (h : ∃ x ∈ l, x.id = it.id) :
    (upsert it l).map Item.id = l.map Item.id := by
  rw [upsert, if_pos h, List.map_map]
  refine List.map_congr_left ?_
  intro x _
  by_cases hx : x.id = it.id
  · simp [Function.comp, hx]
  · simp [Function.comp, hx]

theorem upsert_map_id_absent (it : Item) (l : List Item) (h : ¬ ∃ x ∈ l, x.id = it.id) :
    (upsert it l).map Item.id = l.map Item.id ++ [it.id] := by
  rw [upsert, if_neg h, List.map_append]
  rfl

theorem upsert_nodup (it : Item) (l : List Item) (h : (l.map Item.id).Nodup) :
    ((upsert it l).map Item.id).Nodup := by
  by_cases hp : ∃ x ∈ l, x.id = it.id
  · rw [upsert_map_id_present it l hp]; exact h
  · rw [upsert_map_id_absent it l hp, List.nodup_append]
    refine ⟨h, List.nodup_singleton _, ?_⟩
    intro a ha hb
    rcases List.mem_map.mp ha with ⟨x, hx, rfl⟩
    rcases List.mem_singleton.mp hb with h'
    exact hp ⟨x, hx, h'⟩

theorem upsert_length_present (it : Item) (l : List Item) (h : ∃ x ∈ l, x.id = it.id) :
    (upsert it l).length = l.length := by
  rw [upsert, if_pos h, List.length_map]

theorem filter_map_replace_nil (g : Item → Item) (item_id : String) :
    ∀ l : List Item, (∀ z ∈ l, z.id ≠ item_id) →
    ((l.map (fun y => if y.id = item_id then g y else y)).filter
      (fun y => y.id == item_id)) = [] := by
  intro l hl
  refine List.filter_eq_nil_iff.mpr ?_
  intro a ha
  rcases List.mem_map.mp ha with ⟨x, hx, rfl⟩
  have hne := hl x hx
  rw [if_neg hne]
  simp [hne]

theorem filter_map_replace (g : Item → Item) (item_id : String)
    (hg : ∀ y, y.id = item_id → (g y).id = item_id) :
    ∀ l : List Item, (l.map Item.id).Nodup → ∀ x ∈ l, x.id = item_id →
    ((l.map (fun y => if y.id = item_id then g y else y)).filter
      (fun y => y.id == item_id)) = [g x] := by
  intro l
  induction l with
  | nil => intro _ x hx; exact absurd hx (List.not_mem_nil x)
  | cons y l' ih =>
    intro hnd x hx hxid
    have hnd' := hnd
    rw [List.map_cons, List.nodup_cons] at hnd'
    obtain ⟨hyid, hndt⟩ := hnd'
    rcases List.mem_cons.mp hx with rfl | hxl
    · rw [List.map_cons, List.filter_cons, if_pos hxid]
      have hgid : (g x).id = item_id := hg x hxid
      simp only [hgid, beq_self_eq_true, if_true]
      have hrest : ∀ z ∈ l', z.id ≠ item_id := by
        intro z hz hzid
        exact hyid (List.mem_map.mpr ⟨z, hz, hzid.trans hxid.symm⟩)
      rw [filter_map_replace_nil g item_id l' hrest]
    · have hyne : y.id ≠ item_id := by
        intro hy
        exact hyid ((hy.trans hxid.symm) ▸ (List.mem_map.mpr ⟨x, hxl, hxid ▸ rfl⟩))
      rw [List.map_cons, List.filter_cons, if_neg hyne]
      simp only [hyne, beq_iff_eq, if_false]
      exact ih hndt x hxl hxid

theorem upsert_filter (it : Item) (l : List Item) (hnd : (l.map Item.id).Nodup) :
    ((upsert it l).filter (fun x => x.id == it.id)) = [it] := by
  by_cases hp : ∃ x ∈ l, x.id = it.id
  · obtain ⟨x, hx, hxid⟩ := hp
    rw [upsert, if_pos ⟨x, hx, hxid⟩]
    exact filter_map_replace (fun _ => it) it.id (fun _ _ => rfl) l hnd x hx hxid
  · rw [upsert, if_neg hp, List.filter_append]
    have h1 : (l.filter (fun x => x.id == it.id)) = [] := by
      refine List.filter_eq_nil_iff.mpr ?_
      intro a ha
      simp only [beq_iff_eq]
      exact fun h => hp ⟨a, ha, h⟩
    rw [h1]
    simp

theorem addGo_all_ok (now : String) (disk : List Item) :
    ∀ (ds : List RawItem) (n : Nat) (cur : List Item),
    (∀ x ∈ ds, ∃ it, Item.from_dict now x = .ok it) →
    addGo now disk ds n cur =
      (.ok (n + ds.length),
        { items := foldIngest now ds cur, disk := foldIngest now ds cur }) := by
  intro ds
  induction ds with
  | nil => intro n cur _; simp [addGo, foldIngest]
  | cons d ds ih =>
    intro n cur hok
    obtain ⟨it, hit⟩ := hok d (List.mem_cons_self d ds)
    have hfold : foldIngest now (d :: ds) cur = foldIngest now ds (upsert it cur) := by
      simp only [foldIngest, List.foldl_cons, hit]
    rw [hfold]
    have hcnt : n + (d :: ds).length = (n + 1) + ds.length := by
      simp [List.length_cons]; omega
    rw [hcnt]
    simp only [addGo, hit]
    exact ih (n + 1) (upsert it cur) (fun x hx => hok x (List.mem_cons_of_mem d hx))

theorem addGo_fail (now : String) (disk : List Item) :
    ∀ (ds₁ : List RawItem) (d : RawItem) (ds₂ : List RawItem) (n : Nat)
      (cur : List Item) (e : String),
    (∀ x ∈ ds₁, ∃ it, Item.from_dict now x = .ok it) →
    Item.from_dict now d = .error e →
    addGo now disk (ds₁ ++ d :: ds₂) n cur =
      (.error e, { items := foldIngest now ds₁ cur, disk := disk }) := by
  intro ds₁
  induction ds₁ with
  | nil =>
    intro d ds₂ n cur e _ hbad
    simp only [List.nil_append, addGo, hbad, foldIngest, List.foldl_nil]
  | cons x ds₁ ih =>
    intro d ds₂ n cur e hok hbad
    obtain ⟨it, hx⟩ := hok x (List.mem_cons_self x ds₁)
    have hfold : foldIngest now (x :: ds₁) cur = foldIngest now ds₁ (upsert it cur) := by
      simp only [foldIngest, List.foldl_cons, hx]
    rw [hfold, List.cons_append]
    simp only [addGo, hx]
    exact ih d ds₂ (n + 1) (upsert it cur) e
      (fun y hy => hok y (List.mem_cons_of_mem x hy)) hbad

theorem from_dict_error_iff (now : String) (d : RawItem) :
    (∃ e, Item.from_dict now d = .error e) ↔
    (d.id = none ∨ d.class_ = none ∨ d.subject = none ∨ d.category = none ∨
     d.title = none ∨ d.url = none) := by
  rcases d with ⟨i, c, sub, cat, t, lg, u, aa, v, dl, mt⟩
  cases i <;> cases c <;> cases sub <;> cases cat <;> cases t <;> cases u <;>
    simp [Item.from_dict]

/-- C4: upserting by identifier never errors and is last-write-wins — after
ingesting two valid records with the same id (in particular the same record
twice) the catalog has exactly one entry under that id, holding the second
record's values, and the returned count is the number of records processed;
when the id pre-exists, a single ingest replaces the entry in place, keeping
the collection size. -/
theorem ingest_upsert_last_write (now : String) (s : Store) (d1 d2 : RawItem)
    (it1 it2 : Item) (h1 : Item.from_dict now d1 = .ok it1)
    (h2 : Item.from_dict now d2 = .ok it2) (_hid : it1.id = it2.id)
    (hnd : (s.items.map Item.id).Nodup) :
    ((s.add_from_json now [d1, d2]).1 = .ok 2
     ∧ ((s.add_from_json now [d1, d2]).2.items.filter (fun x => x.id == it2.id)) = [it2]
     ∧ ((s.add_from_json now [d1, d2]).2.items.filter (fun x => x.id == it2.id)).length = 1)
    ∧ ((∃ x ∈ s.items, x.id = it1.id) →
       ((s.add_from_json now [d1]).1 = .ok 1
        ∧ (s.add_from_json now [d1]).2.items.length = s.items.length
        ∧ ((s.add_from_json now [d1]).2.items.filter (fun x => x.id == it1.id)) = [it1]))
    ∧ (∀ ds : List RawItem, (∀ x ∈ ds, ∃ it, Item.from_dict now x = .ok it) →
        (s.add_from_json now ds).1 = .ok ds.length) := by
  have e2 : s.add_from_json now [d1, d2] =
      (.ok 2, { items := upsert it2 (upsert it1 s.items),
                disk := upsert it2 (upsert it1 s.items) }) := by
    simp only [Store.add_from_json, addGo, h1, h2]
  have e1 : s.add_from_json now [d1] =
      (.ok 1, { items := upsert it1 s.items, disk := upsert it1 s.items }) := by
    simp only [Store.add_from_json, addGo, h1]
  have hnd1 : ((upsert it1 s.items).map Item.id).Nodup := upsert_nodup it1 s.items hnd
  refine ⟨⟨?_, ?_, ?_⟩, ?_, ?_⟩
  · rw [e2]
  · rw [e2]
    exact upsert_filter it2 (upsert it1 s.items) hnd1
  · rw [e2, upsert_filter it2 (upsert it1 s.items) hnd1]
    rfl
  · intro hp
    refine ⟨by rw [e1], ?_, ?_⟩
    · rw [e1]
      exact upsert_length_present it1 s.items hp
    · rw [e1]
      exact upsert_filter it1 s.items hnd
  · intro ds hds
    rw [Store.add_from_json, addGo_all_ok now s.disk ds 0 s.items hds]
    rw [Nat.zero_add]

/-- C9: a batch containing a record with a missing required field makes
`add_from_json` raise before `_save()` — the persisted catalog (`disk`) is
unchanged — yet every earlier (valid) record of the batch has already been
upserted into the in-memory collection; missing one of id, class_, subject,
category, title, url is exactly what makes a record invalid. -/
theorem bulk_ingest_partial_failure (now : String) (s : Store) (ds₁ : List RawItem)
    (d : RawItem) (ds₂ : List RawItem)
    (hok : ∀ x ∈ ds₁, ∃ it, Item.from_dict now x = .ok it)
    (hbad : ∃ e, Item.from_dict now d = .error e) :
    (∃ e, (s.add_from_json now (ds₁ ++ d :: ds₂)).1 = .error e)
    ∧ (s.add_from_json now (ds₁ ++ d :: ds₂)).2.disk = s.disk
    ∧ (s.add_from_json now (ds₁ ++ d :: ds₂)).2.items = foldIngest now ds₁ s.items
    ∧ ((∃ e, Item.from_dict now d = .error e) ↔
       (d.id = none ∨ d.class_ = none ∨ d.subject = none ∨ d.category = none ∨
        d.title = none ∨ d.url = none)) := by
  obtain ⟨e, he⟩ := hbad
  have hrun := addGo_fail now s.disk ds₁ d ds₂ 0 s.items e hok he
  rw [Store.add_from_json]
  refine ⟨⟨e, by rw [hrun]⟩, by rw [hrun], by rw [hrun], from_dict_error_iff now d⟩

theorem inc_view_items (s : Store) (item_id : String) :
    (s.inc_view item_id).items = (if ∃ x ∈ s.items, x.id = item_id then
      s.items.map (fun x => if x.id = item_id then { x with views := x.views + 1 } else x)
    else s.items) := by
  rw [Store.inc_view]
  by_cases h : ∃ x ∈ s.items, x.id = item_id
  · rw [if_pos h, if_pos h]; rfl
  · rw [if_neg h, if_neg h]

theorem inc_download_items (s : Store) (item_id : String) :
    (s.inc_download item_id).items = (if ∃ x ∈ s.items, x.id = item_id then
      s.items.map (fun x =>
        if x.id = item_id then { x with downloads := x.downloads + 1 } else x)
    else s.items) := by
  rw [Store.inc_download]
  by_cases h : ∃ x ∈ s.items, x.id = item_id
  · rw [if_pos h, if_pos h]; rfl
  · rw [if_neg h, if_neg h]

theorem applyIncOp_length (s : Store) (op : IncOp) :
    (applyIncOp s op).items.length = s.items.length := by
  cases op with
  | view i =>
    rw [applyIncOp, inc_view_items]
    by_cases h : ∃ x ∈ s.items, x.id = i
    · rw [if_pos h, List.length_map]
    · rw [if_neg h]
  | download i =>
    rw [applyIncOp, inc_download_items]
    by_cases h : ∃ x ∈ s.items, x.id = i
    · rw [if_pos h, List.length_map]
    · rw [if_neg h]

theorem applyIncOp_get (s : Store) (op : IncOp) (i : Nat) (x : Item)
    (hx : s.items.get? i = some x) :
    ∃ y, (applyIncOp s op).items.get? i = some y ∧
      x.views ≤ y.views ∧ x.downloads ≤ y.downloads := by
  cases op with
  | view j =>
    rw [applyIncOp, inc_view_items]
    by_cases h : ∃ z ∈ s.items, z.id = j
    · rw [if_pos h]
      refine ⟨if x.id = j then { x with views := x.views + 1 } else x, ?_, ?_, ?_⟩
      · rw [List.get?_eq_getElem?] at hx; rw [List.get?_eq_getElem?, List.getElem?_map, hx]; rfl
      · by_cases hx2 : x.id = j
        · rw [if_pos hx2]; simp
        · rw [if_neg hx2]
      · by_cases hx2 : x.id = j
        · rw [if_pos hx2]
        · rw [if_neg hx2]
    · rw [if_neg h]
      exact ⟨x, hx, le_refl _, le_refl _⟩
  | download j =>
    rw [applyIncOp, inc_download_items]
    by_cases h : ∃ z ∈ s.items, z.id = j
    · rw [if_pos h]
      refine ⟨if x.id = j then { x with downloads := x.downloads + 1 } else x, ?_, ?_, ?_⟩
      · rw [List.get?_eq_getElem?] at hx; rw [List.get?_eq_getElem?, List.getElem?_map, hx]; rfl
      · by_cases hx2 : x.id = j
        · rw [if_pos hx2]
        · rw [if_neg hx2]
      · by_cases hx2 : x.id = j
        · rw [if_pos hx2]; simp
        · rw [if_neg hx2]
    · rw [if_neg h]
      exact ⟨x, hx, le_refl _, le_refl _⟩

theorem applyIncOps_length (s : Store) :
    ∀ ops : List IncOp, (applyIncOps s ops).items.length = s.items.length := by
  intro ops
  induction ops generalizing s with
  | nil => rfl
  | cons op ops ih =>
    show (applyIncOps (applyIncOp s op) ops).items.length = s.items.length
    rw [ih (applyIncOp s op)]
    exact applyIncOp_length s op

theorem applyIncOps_get (s : Store) :
    ∀ (ops : List IncOp) (i : Nat) (x : Item), s.items.get? i = some x →
    ∃ y, (applyIncOps s ops).items.get? i = some y ∧
      x.views ≤ y.views ∧ x.downloads ≤ y.downloads := by
  intro ops
  induction ops generalizing s with
  | nil => intro i x hx; exact ⟨x, hx, le_refl _, le_refl _⟩
  | cons op ops ih =>
    intro i x hx
    obtain ⟨m, hm, hmv, hmd⟩ := applyIncOp_get s op i x hx
    obtain ⟨y, hy, hyv, hyd⟩ := ih (applyIncOp s op) i m hm
    exact ⟨y, hy, le_trans hmv hyv, le_trans hmd hyd⟩

/-- C5: incrementing the view/download counter of an absent identifier is a
complete no-op (no error, collection and size unchanged); on a present
identifier the respective counter grows by exactly one (the item's unique
entry becomes the same item with counter + 1, and the size is kept), and no
sequence of increment events ever decreases any item's counters. -/
theorem counter_increment_props (s : Store) (item_id : String) :
    ((∀ x ∈ s.items, x.id ≠ item_id) →
      s.inc_view item_id = s ∧ s.inc_download item_id = s)
    ∧ ((s.items.map Item.id).Nodup → ∀ x ∈ s.items, x.id = item_id →
        ((s.inc_view item_id).items.filter (fun y => y.id == item_id)) =
          [{ x with views := x.views + 1 }]
        ∧ ((s.inc_download item_id).items.filter (fun y => y.id == item_id)) =
          [{ x with downloads := x.downloads + 1 }]
        ∧ (s.inc_view item_id).items.length = s.items.length
        ∧ (s.inc_download item_id).items.length = s.items.length)
    ∧ (∀ ops : List IncOp, (applyIncOps s ops).items.length = s.items.length
        ∧ ∀ (i : Nat) (x y : Item), s.items.get? i = some x →
            (applyIncOps s ops).items.get? i = some y →
          x.views ≤ y.views ∧ x.downloads ≤ y.downloads) := by
  refine ⟨?_, ?_, ?_⟩
  · intro habs
    have h : ¬ ∃ x ∈ s.items, x.id = item_id := by
      rintro ⟨x, hx, hxid⟩
      exact habs x hx hxid
    constructor
    · rw [Store.inc_view, if_neg h]
    · rw [Store.inc_download, if_neg h]
  · intro hnd x hx hxid
    have hp : ∃ y ∈ s.items, y.id = item_id := ⟨x, hx, hxid⟩
    refine ⟨?_, ?_, ?_, ?_⟩
    · rw [inc_view_items, if_pos hp]
      exact filter_map_replace (fun y => { y with views := y.views + 1 }) item_id
        (fun y hy => hy) s.items hnd x hx hxid
    · rw [inc_download_items, if_pos hp]
      exact filter_map_replace (fun y => { y with downloads := y.downloads + 1 }) item_id
        (fun y hy => hy) s.items hnd x hx hxid
    · rw [inc_view_items, if_pos hp, List.length_map]
    · rw [inc_download_items, if_pos hp, List.length_map]
  · intro ops
    refine ⟨applyIncOps_length s ops, ?_⟩
    intro i x y hx hy
    obtain ⟨z, hz, hzv, hzd⟩ := applyIncOps_get s ops i x hx
    rw [hy] at hz
    cases hz
    exact ⟨hzv, hzd⟩

theorem lookupU_eq_none_iff (uid : Int) :
    ∀ db : UsersDB, lookupU uid db = none ↔ ¬ ∃ e ∈ db, e.1 = ukey uid := by
  intro db
  induction db with
  | nil => simp [lookupU]
  | cons e es ih =>
    by_cases h : e.1 = ukey uid
    · simp [lookupU, h]
    · simp [lookupU, h, ih]

theorem lookupU_some_exists (uid : Int) {db : UsersDB} {p : Profile}
    (h : lookupU uid db = some p) : ∃ e ∈ db, e.1 = ukey uid := by
  by_contra hc
  rw [← lookupU_eq_none_iff uid db] at hc
  rw [h] at hc
  exact Option.noConfusion hc

theorem ensure_user_of_mem (uid : Int) (db : UsersDB)
    (h : ∃ e ∈ db, e.1 = ukey uid) : ensure_user uid db = db := by
  rw [ensure_user, if_pos h]

theorem ensure_user_of_some (uid : Int) {db : UsersDB} {p : Profile}
    (h : lookupU uid db = some p) : ensure_user uid db = db :=
  ensure_user_of_mem uid db (lookupU_some_exists uid h)

theorem lookupU_append_self (uid : Int) (q : Profile) :
    ∀ db : UsersDB, lookupU uid db = none →
    lookupU uid (db ++ [(ukey uid, q)]) = some q := by
  intro db
  induction db with
  | nil => intro _; simp [lookupU]
  | cons e es ih =>
    intro h
    by_cases he : e.1 = ukey uid
    · rw [lookupU, if_pos he] at h
      exact Option.noConfusion h
    · rw [lookupU, if_neg he] at h
      rw [List.cons_append, lookupU, if_neg he]
      exact ih h

theorem lookupU_modifyU (uid : Int) (f : Profile → Profile) :
    ∀ db : UsersDB, lookupU uid (modifyU uid f db) = (lookupU uid db).map f := by
  intro db
  induction db with
  | nil => rfl
  | cons e es ih =>
    by_cases he : e.1 = ukey uid
    · simp [modifyU, lookupU, he]
    · simp [modifyU, lookupU, he, ih]

theorem modifyU_fst (uid : Int) (f : Profile → Profile) :
    ∀ db : UsersDB, (modifyU uid f db).map Prod.fst = db.map Prod.fst := by
  intro db
  induction db with
  | nil => rfl
  | cons e es ih =>
    by_cases he : e.1 = ukey uid <;> simp [modifyU, he, ih]

theorem exists_key_iff_mem_fst (k : String) (db : UsersDB) :
    (∃ e ∈ db, e.1 = k) ↔ k ∈ db.map Prod.fst :=
  (List.mem_map).symm

theorem ensure_key_mem (uid : Int) (db : UsersDB) :
    ukey uid ∈ (ensure_user uid db).map Prod.fst := by
  rw [ensure_user]
  by_cases h : ∃ e ∈ db, e.1 = ukey uid
  · rw [if_pos h]
    exact (exists_key_iff_mem_fst _ _).mp h
  · rw [if_neg h]
    simp

theorem modifyU_modifyU (uid : Int) (f g : Profile → Profile) :
    ∀ db : UsersDB, modifyU uid f (modifyU uid g db) = modifyU uid (fun p => f (g p)) db := by
  intro db
  induction db with
  | nil => rfl
  | cons e es ih =>
    by_cases he : e.1 = ukey uid <;> simp [modifyU, he, ih]

theorem modifyU_id_of (uid : Int) (f : Profile → Profile) :
    ∀ db : UsersDB, (∀ e ∈ db, e.1 = ukey uid → f e.2 = e.2) → modifyU uid f db = db := by
  intro db
  induction db with
  | nil => intro _; rfl
  | cons e es ih =>
    intro h
    by_cases he : e.1 = ukey uid
    · rw [modifyU, if_pos he, h e (List.mem_cons_self e es) he,
        ih (fun e2 h2 hk2 => h e2 (List.mem_cons_of_mem e h2) hk2)]
    · rw [modifyU, if_neg he, ih (fun e2 h2 hk2 => h e2 (List.mem_cons_of_mem e h2) hk2)]

theorem entry_unique (uid : Int) :
    ∀ db : UsersDB, (db.map Prod.fst).Nodup → ∀ p, lookupU uid db = some p →
    ∀ e ∈ db, e.1 = ukey uid → e.2 = p := by
  intro db
  induction db with
  | nil => intro _ p hp; exact absurd hp (by simp [lookupU])
  | cons e es ih =>
    intro hnd p hp e2 he2 hk2
    rw [List.map_cons, List.nodup_cons] at hnd
    obtain ⟨hnotin, hndt⟩ := hnd
    by_cases he : e.1 = ukey uid
    · rw [lookupU, if_pos he] at hp
      rcases List.mem_cons.mp he2 with rfl | h2t
      · exact Option.some.inj hp
      · exact absurd (List.mem_map.mpr ⟨e2, h2t, hk2.trans he.symm⟩) hnotin
    · rw [lookupU, if_neg he] at hp
      rcases List.mem_cons.mp he2 with rfl | h2t
      · exact absurd hk2 he
      · exact ih hndt p hp e2 h2t hk2

/-- C6: bookmarking is idempotent (pressing bookmark twice equals once); on a
profile whose bookmark list is duplicate-free the id ends up exactly once,
appended at the end in insertion order; a fresh user gets the lazily created
profile with just that bookmark; and unbookmarking an id not in the list is a
complete no-op.  Neither operation consults the catalog `Store` (they take no
catalog argument at all). -/
theorem bookmark_set_semantics (uid : Int) (item_id : String) (db : UsersDB) :
    (bookmark uid item_id (bookmark uid item_id db) = bookmark uid item_id db)
    ∧ (∀ p, lookupU uid db = some p →
        ((lookupU uid (bookmark uid item_id db)).map Profile.bookmarks =
          some (if item_id ∈ p.bookmarks then p.bookmarks
                else p.bookmarks ++ [item_id]))
        ∧ (p.bookmarks.Nodup →
            ((if item_id ∈ p.bookmarks then p.bookmarks
              else p.bookmarks ++ [item_id]).count item_id) = 1))
    ∧ (lookupU uid db = none →
        (lookupU uid (bookmark uid item_id db)).map Profile.bookmarks = some [item_id])
    ∧ ((db.map Prod.fst).Nodup → ∀ p, lookupU uid db = some p →
        item_id ∉ p.bookmarks → unbookmark uid item_id db = db) := by
  refine ⟨?_, ?_, ?_, ?_⟩
  · have h1 : ensure_user uid (bookmark uid item_id db) = bookmark uid item_id db := by
      apply ensure_user_of_mem
      apply (exists_key_iff_mem_fst _ _).mpr
      rw [bookmark, modifyU_fst]
      exact ensure_key_mem uid db
    rw [bookmark, h1, bookmark, modifyU_modifyU]
    refine congrArg (fun g => modifyU uid g (ensure_user uid db)) (funext ?_)
    intro p
    by_cases hb : item_id ∈ p.bookmarks
    · rw [if_pos hb, if_pos hb]
    · rw [if_neg hb]
      have : item_id ∈ ({ p with bookmarks := p.bookmarks ++ [item_id]} : Profile).bookmarks :=
        List.mem_append_right _ (List.mem_singleton.mpr rfl)
      rw [if_pos this]
  · intro p hp
    constructor
    · rw [bookmark, ensure_user_of_some uid hp, lookupU_modifyU, hp]
      by_cases hb : item_id ∈ p.bookmarks
      · rw [if_pos hb]
        simp [hb]
      · rw [if_neg hb]
        simp [hb]
    · intro hnd
      by_cases hb : item_id ∈ p.bookmarks
      · rw [if_pos hb]
        exact List.count_eq_one_of_mem hnd hb
      · rw [if_neg hb, List.count_append]
        rw [List.count_eq_zero.mpr hb]
        simp
  · intro h
    rw [bookmark, ensure_user, if_neg ((lookupU_eq_none_iff uid db).mp h),
      lookupU_modifyU, lookupU_append_self uid defaultProfile db h]
    simp [defaultProfile]
  · intro hnd p hp hmem
    rw [unbookmark, ensure_user_of_some uid hp]
    apply modifyU_id_of
    intro e he hek
    rw [entry_unique uid db hnd p hp e he hek, if_neg hmem]

/-- C7: referencing an unknown user through `get_lang` returns the default
language `"hi"` (one of the two supported UI languages) and lazily installs
the default profile — empty bookmarks, zero points, subscription off, no
quiz — so the next direct lookup succeeds; `ensure_user` is idempotent and
leaves an existing profile unchanged. -/
theorem ensure_profile_lazy_default (uid : Int) (db : UsersDB)
    (h : lookupU uid db = none) :
    (get_lang uid db).1 = "hi"
    ∧ (get_lang uid db).1 ∈ ["hi", "en"]
    ∧ lookupU uid (get_lang uid db).2 = some defaultProfile
    ∧ defaultProfile.bookmarks = [] ∧ defaultProfile.points = 0
    ∧ defaultProfile.daily = false ∧ defaultProfile.quiz = none
    ∧ (∀ db2 : UsersDB, (∃ e ∈ db2, e.1 = ukey uid) → ensure_user uid db2 = db2)
    ∧ ensure_user uid (ensure_user uid db) = ensure_user uid db := by
  have hens : ensure_user uid db = db ++ [(ukey uid, defaultProfile)] := by
    rw [ensure_user, if_neg ((lookupU_eq_none_iff uid db).mp h)]
  have hlk : lookupU uid (ensure_user uid db) = some defaultProfile := by
    rw [hens]
    exact lookupU_append_self uid defaultProfile db h
  refine ⟨?_, ?_, ?_, rfl, rfl, rfl, rfl, ?_, ?_⟩
  · rw [get_lang]
    rw [hlk]
    rfl
  · rw [get_lang]
    rw [hlk]
    simp [defaultProfile]
  · rw [get_lang]
    exact hlk
  · intro db2 h2
    exact ensure_user_of_mem uid db2 h2
  · apply ensure_user_of_mem
    apply (exists_key_iff_mem_fst _ _).mpr
    exact ensure_key_mem uid db

theorem add_points_lookup (uid : Int) (pts : Int) (db : UsersDB) (p : Profile)
    (h : lookupU uid db = some p) :
    lookupU uid (add_points uid pts db) = some { p with points := p.points + pts } := by
  rw [add_points, ensure_user_of_some uid h, lookupU_modifyU, h]
  rfl

theorem set_quiz_lookup (uid : Int) (q : Option Quiz) (db : UsersDB) (p : Profile)
    (h : lookupU uid db = some p) :
    lookupU uid (set_quiz uid q db) = some { p with quiz := q } := by
  rw [set_quiz, ensure_user_of_some uid h, lookupU_modifyU, h]
  rfl

theorem get_quiz_of_some (uid : Int) (db : UsersDB) (p : Profile)
    (h : lookupU uid db = some p) : get_quiz uid db = (p.quiz, db) := by
  rw [get_quiz, ensure_user_of_some uid h, h]
  rfl

theorem sendNextQuiz_lookup (uid : Int) (db : UsersDB) (p : Profile)
    (h : lookupU uid db = some p) :
    lookupU uid (sendNextQuiz uid db) = some (sendNextP p) := by
  rw [sendNextQuiz, get_quiz_of_some uid db p h, sendNextP]
  by_cases hc : ((p.quiz.map Quiz.qs).getD []).length ≤ (p.quiz.map Quiz.i).getD 0
  · rw [if_pos hc, if_pos hc]
    exact add_points_lookup uid _ db p h
  · rw [if_neg hc, if_neg hc, h]

theorem quizAnswerCb_lookup (uid : Int) (i opt : Nat) (db : UsersDB) (p : Profile)
    (h : lookupU uid db = some p) :
    lookupU uid (quizAnswerCb uid i opt db) = some (answerStepP i opt p) := by
  rw [quizAnswerCb, get_quiz_of_some uid db p h, answerStepP]
  cases hpq : p.quiz with
  | none => exact h
  | some qz =>
    dsimp only
    by_cases hlt : i < qz.qs.length
    · rw [dif_pos hlt, dif_pos hlt]
      by_cases hc : (opt == (qz.qs.get ⟨i, hlt⟩).ans) = true
      · simp only [if_pos hc]
        have h1 : lookupU uid (add_points uid 1 db) =
            some { p with points := p.points + 1 } :=
          add_points_lookup uid 1 db p h
        have h2 := set_quiz_lookup uid
          (some { qz with i := i + 1, score := qz.score + 1 })
          (add_points uid 1 db) { p with points := p.points + 1 } h1
        exact sendNextQuiz_lookup uid _ _ h2
      · simp only [if_neg hc]
        have h2 := set_quiz_lookup uid
          (some { qz with i := i + 1, score := qz.score }) db p h
        exact sendNextQuiz_lookup uid _ _ h2
    · rw [dif_neg hlt, dif_neg hlt]
      exact h

theorem runAnswers_lookup (uid : Int) :
    ∀ (opts : List Nat) (st : Nat) (db : UsersDB) (p : Profile),
    lookupU uid db = some p →
    lookupU uid (runAnswers uid opts st db) = some (runAnswersP opts st p) := by
  intro opts
  induction opts with
  | nil => intro st db p h; exact h
  | cons o os ih =>
    intro st db p h
    show lookupU uid (runAnswers uid os (st + 1) (quizAnswerCb uid st o db)) = _
    rw [ih (st + 1) (quizAnswerCb uid st o db) (answerStepP st o p)
      (quizAnswerCb_lookup uid st o db p h)]
    rfl

theorem runAnswersP_spec (subj : String) (qs : List Question) :
    ∀ (opts : List Nat) (st j sc : Nat) (p : Profile),
    p.quiz = some ⟨subj, j, sc, qs⟩ → st + opts.length = qs.length → opts ≠ [] →
    runAnswersP opts st p =
      { p with
        points := p.points + (countCorrect (qs.drop st) opts : Int) +
          2 * ((sc : Int) + (countCorrect (qs.drop st) opts : Int)),
        quiz := some ⟨subj, qs.length, sc + countCorrect (qs.drop st) opts, qs⟩ } := by
  intro opts
  induction opts with
  | nil => intro st j sc p _ _ hne; exact absurd rfl hne
  | cons o os ih =>
    intro st j sc p hq hlen _
    have hst : st < qs.length := by
      have : st + (o :: os).length = qs.length := hlen
      rw [List.length_cons] at this
      omega
    have hdrop : qs.drop st = qs[st] :: qs.drop (st + 1) :=
      List.drop_eq_getElem_cons hst
    have hcc : countCorrect (qs.drop st) (o :: os) =
        (if o = qs[st].ans then 1 else 0) + countCorrect (qs.drop (st + 1)) os := by
      rw [hdrop, countCorrect]
    have hstep : answerStepP st o p =
        sendNextP { p with
          points := p.points + (if o = qs[st].ans then 1 else 0),
          quiz := some ⟨subj, st + 1,
            sc + (if o = qs[st].ans then 1 else 0), qs⟩ } := by
      rw [answerStepP, hq]
      dsimp only
      rw [dif_pos hst]
      by_cases hc : o = qs[st].ans
      · simp [hc, List.get_eq_getElem]
      · simp [hc, List.get_eq_getElem]
    by_cases hos : os = []
    · subst hos
      have hN : st + 1 = qs.length := by
        simp only [List.length_cons, List.length_nil] at hlen
        omega
      show runAnswersP [] (st + 1) (answerStepP st o p) = _
      rw [runAnswersP, hstep, sendNextP]
      dsimp only [Option.map_some', Option.getD_some]
      rw [if_pos (by omega : qs.length ≤ st + 1)]
      have hc0 : countCorrect (qs.drop (st + 1)) ([] : List Nat) = 0 := by
        cases qs.drop (st + 1) <;> rfl
      simp only [Profile.mk.injEq, Option.some.injEq, Quiz.mk.injEq, hcc, hc0, true_and,
        and_true]
      by_cases hc : o = qs[st].ans
      · simp only [if_pos hc]
        refine ⟨by push_cast; omega, hN, trivial⟩
      · simp only [if_neg hc]
        refine ⟨by push_cast; omega, hN, trivial⟩
    · have hlt2 : st + 1 + os.length = qs.length := by
        rw [List.length_cons] at hlen
        omega
      show runAnswersP os (st + 1) (answerStepP st o p) = _
      rw [hstep, sendNextP]
      dsimp only [Option.map_some', Option.getD_some]
      have hnotend : ¬ qs.length ≤ st + 1 := by
        have : 0 < os.length := List.length_pos.mpr hos
        omega
      rw [if_neg hnotend]
      rw [ih (st + 1) (st + 1) (sc + (if o = qs[st].ans then 1 else 0)) _ rfl
        hlt2 hos]
      simp only [Profile.mk.injEq, Option.some.injEq, Quiz.mk.injEq, hcc, true_and, and_true]
      by_cases hc : o = qs[st].ans
      · simp only [if_pos hc]
        refine ⟨by push_cast; omega, by omega⟩
      · simp only [if_neg hc]
        refine ⟨by push_cast; omega, by omega⟩

/-- C1 (amended): starting a quiz with `N` questions and answering all `N`
(any options) terminates the session with index `N` and score equal to the
number of correct answers; the points added to the user's total over the whole
quiz equal `3 ×` the number of correct answers — `1` per correct answer at
answer time plus the `2 × score` award at termination (the claim's `2 ×` only
counts the terminal award). -/
theorem quiz_run_points (uid : Int) (db : UsersDB) (p : Profile) (subj : String)
    (qs : List Question) (opts : List Nat)
    (hp : lookupU uid db = some p) (hq : p.quiz = some ⟨subj, 0, 0, qs⟩)
    (hlen : opts.length = qs.length) :
    lookupU uid (runAnswers uid opts 0 db) =
      some { p with
        points := p.points + 3 * (countCorrect qs opts : Int),
        quiz := some ⟨subj, qs.length, countCorrect qs opts, qs⟩ } := by
  rw [runAnswers_lookup uid opts 0 db p hp]
  cases opts with
  | nil =>
    have hqs : qs = [] := by
      rw [List.length_nil] at hlen
      exact List.eq_nil_of_length_eq_zero hlen.symm
    subst hqs
    have h0 : countCorrect ([] : List Question) ([] : List Nat) = 0 := rfl
    show some p = _
    rw [h0]
    obtain ⟨plang, pbm, ppts, pdaily, pquiz⟩ := p
    simp only at hq
    simp [hq]
  | cons o os =>
    rw [runAnswersP_spec subj qs (o :: os) 0 0 0 p hq (by omega) (by simp)]
    simp only [List.drop_zero, Profile.mk.injEq, Option.some.injEq, Quiz.mk.injEq,
      Nat.cast_zero, true_and, and_true]
    constructor
    · omega
    · omega

/-- C1 (counterexample): answering the single question of the session
correctly ends it with index `1 = N`, but adds `3` points — not
`2 × correct = 2` as the claim states — because the answer callback already
awarded one point before the `score * 2` terminal award. -/
theorem quiz_double_award_counterexample :
    ((lookupU 7 (runAnswers 7 [1] 0 dbC1x)).map Profile.points = some 3)
    ∧ ¬ ((lookupU 7 (runAnswers 7 [1] 0 dbC1x)).map Profile.points = some (2 * 1))
    ∧ (((lookupU 7 (runAnswers 7 [1] 0 dbC1x)).bind Profile.quiz).map Quiz.i = some 1) := by
  refine ⟨by decide, by decide, by decide⟩

theorem quiz_run_points_witness :
    (lookupU 5 dbC1w = some pC1w ∧ pC1w.quiz = some ⟨"Physics", 0, 0, qsC1w⟩ ∧
      ([3] : List Nat).length = qsC1w.length) ∧
    lookupU 5 (runAnswers 5 [3] 0 dbC1w) =
      some { pC1w with
        points := pC1w.points + 3 * (countCorrect qsC1w [3] : Int),
        quiz := some ⟨"Physics", qsC1w.length, countCorrect qsC1w [3], qsC1w⟩ } :=
  ⟨⟨by decide, rfl, rfl⟩,
   quiz_run_points 5 dbC1w pC1w "Physics" qsC1w [3] (by decide) rfl rfl⟩

theorem search_sound_sorted_witness :
    (itC2w ∈ Store.search ⟨[itC2w], [itC2w]⟩ "mat" none) ∧
    ((pyIn (pyStrip (pyLower "mat")) (pyLower itC2w.title) = true ∨
      pyIn (pyStrip (pyLower "mat")) (pyLower itC2w.subject) = true ∨
      pyIn (pyStrip (pyLower "mat")) (pyLower itC2w.category) = true)
     ∧ ∀ l, (none : Option String) = some l → itC2w.lang = l) :=
  ⟨by decide,
   (search_sound_sorted ⟨[itC2w], [itC2w]⟩ "mat" none).2.1 itC2w (by decide)⟩

theorem ingest_upsert_last_write_witness :
    (Item.from_dict "now" rawC4w = .ok itC4w ∧ itC4w.id = itC4w.id ∧
      (stC4w.items.map Item.id).Nodup) ∧
    ((stC4w.add_from_json "now" [rawC4w, rawC4w]).1 = .ok 2
     ∧ ((stC4w.add_from_json "now" [rawC4w, rawC4w]).2.items.filter
         (fun x => x.id == itC4w.id)) = [itC4w]
     ∧ ((stC4w.add_from_json "now" [rawC4w, rawC4w]).2.items.filter
         (fun x => x.id == itC4w.id)).length = 1) ∧
    ((stC4w.add_from_json "now" [rawC4w]).1 = .ok 1
     ∧ (stC4w.add_from_json "now" [rawC4w]).2.items.length = stC4w.items.length
     ∧ ((stC4w.add_from_json "now" [rawC4w]).2.items.filter
         (fun x => x.id == itC4w.id)) = [itC4w]) :=
  ⟨⟨rfl, rfl, by decide⟩,
   (ingest_upsert_last_write "now" stC4w rawC4w rawC4w itC4w itC4w rfl rfl rfl
     (by decide)).1,
   (ingest_upsert_last_write "now" stC4w rawC4w rawC4w itC4w itC4w rfl rfl rfl
     (by decide)).2.1 ⟨⟨"x1", "9", "s", "c", "t", "English", "u", "2020", 0, 0, "link"⟩,
       by decide, rfl⟩⟩

theorem counter_increment_props_witness :
    ((∀ x ∈ stC5w.items, x.id ≠ "zz") ∧
      stC5w.inc_view "zz" = stC5w ∧ stC5w.inc_download "zz" = stC5w) ∧
    ((stC5w.items.map Item.id).Nodup ∧ itC5w ∈ stC5w.items ∧ itC5w.id = "v1" ∧
      ((stC5w.inc_view "v1").items.filter (fun y => y.id == "v1")) =
        [{ itC5w with views := itC5w.views + 1 }]) ∧
    (stC5w.items.get? 0 = some itC5w ∧
      (applyIncOps stC5w [IncOp.view "v1", IncOp.view "v1"]).items.get? 0 =
        some { itC5w with views := itC5w.views + 2 } ∧
      itC5w.views ≤ ({ itC5w with views := itC5w.views + 2 } : Item).views ∧
      itC5w.downloads ≤ ({ itC5w with views := itC5w.views + 2 } : Item).downloads) :=
  ⟨⟨by decide, ((counter_increment_props stC5w "zz").1 (by decide)).1,
    ((counter_increment_props stC5w "zz").1 (by decide)).2⟩,
   ⟨by decide, by decide, rfl,
    ((counter_increment_props stC5w "v1").2.1 (by decide) itC5w (by decide) rfl).1⟩,
   ⟨by decide, by decide,
    (((counter_increment_props stC5w "v1").2.2
        [IncOp.view "v1", IncOp.view "v1"]).2 0 itC5w
        { itC5w with views := itC5w.views + 2 } (by decide) (by decide)).1,
    (((counter_increment_props stC5w "v1").2.2
        [IncOp.view "v1", IncOp.view "v1"]).2 0 itC5w
        { itC5w with views := itC5w.views + 2 } (by decide) (by decide)).2⟩⟩

theorem bookmark_set_semantics_witness :
    (bookmark 9 "b" (bookmark 9 "b" dbC6w) = bookmark 9 "b" dbC6w) ∧
    (lookupU 9 dbC6w = some pC6w ∧
      (lookupU 9 (bookmark 9 "b" dbC6w)).map Profile.bookmarks =
        some (if "b" ∈ pC6w.bookmarks then pC6w.bookmarks
              else pC6w.bookmarks ++ ["b"])) ∧
    (pC6w.bookmarks.Nodup ∧
      ((if "b" ∈ pC6w.bookmarks then pC6w.bookmarks
        else pC6w.bookmarks ++ ["b"]).count "b") = 1) ∧
    ((dbC6w.map Prod.fst).Nodup ∧ "z" ∉ pC6w.bookmarks ∧
      unbookmark 9 "z" dbC6w = dbC6w) :=
  ⟨(bookmark_set_semantics 9 "b" dbC6w).1,
   ⟨by decide, ((bookmark_set_semantics 9 "b" dbC6w).2.1 pC6w (by decide)).1⟩,
   ⟨by decide, ((bookmark_set_semantics 9 "b" dbC6w).2.1 pC6w (by decide)).2 (by decide)⟩,
   ⟨by decide, by decide,
    (bookmark_set_semantics 9 "z" dbC6w).2.2.2 (by decide) pC6w (by decide) (by decide)⟩⟩

theorem ensure_profile_lazy_default_witness :
    (lookupU 42 ([] : UsersDB) = none) ∧
    (get_lang 42 ([] : UsersDB)).1 = "hi" ∧
    lookupU 42 (get_lang 42 ([] : UsersDB)).2 = some defaultProfile :=
  ⟨rfl, (ensure_profile_lazy_default 42 [] rfl).1,
   (ensure_profile_lazy_default 42 [] rfl).2.2.1⟩

theorem bulk_ingest_partial_failure_witness :
    ((∃ e, Item.from_dict "t" rawC9bad = .error e) ∧
      (∃ e, (stC9w.add_from_json "t" ([rawC9ok] ++ rawC9bad :: [])).1 = .error e)) ∧
    (stC9w.add_from_json "t" ([rawC9ok] ++ rawC9bad :: [])).2.disk = stC9w.disk ∧
    (stC9w.add_from_json "t" ([rawC9ok] ++ rawC9bad :: [])).2.items =
      foldIngest "t" [rawC9ok] stC9w.items :=
  ⟨⟨⟨"KeyError: id", rfl⟩,
    (bulk_ingest_partial_failure "t" stC9w [rawC9ok] rawC9bad []
      (fun x hx => by
        rcases List.mem_singleton.mp hx with rfl
        exact ⟨⟨"k1", "9", "Science", "PYQs", "T", "English", "u", "2023", 0, 0, "link"⟩,
          rfl⟩)
      ⟨"KeyError: id", rfl⟩).1⟩,
   (bulk_ingest_partial_failure "t" stC9w [rawC9ok] rawC9bad []
      (fun x hx => by
        rcases List.mem_singleton.mp hx with rfl
        exact ⟨⟨"k1", "9", "Science", "PYQs", "T", "English", "u", "2023", 0, 0, "link"⟩,
          rfl⟩)
      ⟨"KeyError: id", rfl⟩).2.1,
   (bulk_ingest_partial_failure "t" stC9w [rawC9ok] rawC9bad []
      (fun x hx => by
        rcases List.mem_singleton.mp hx with rfl
        exact ⟨⟨"k1", "9", "Science", "PYQs", "T", "English", "u", "2023", 0, 0, "link"⟩,
          rfl⟩)
      ⟨"KeyError: id", rfl⟩).2.2.1⟩

theorem empty_query_returns_all_witness :
    (pyStrip (pyLower "  ") = "") ∧
    (stC10w.search "  " (some "Hindi")).Perm
      (stC10w.items.filter (langOk (some "Hindi"))) :=
  ⟨rfl, empty_query_returns_all stC10w "  " (some "Hindi") rfl⟩
